import Mathlib

/-!
Verification of the text-chunking, model-client and FAQ-orchestration logic of
`src/app.py` (Text Summarizer & FAQ Generator).

Modelling conventions:
* Python strings are `List Char`; `str` embeds Lean string literals.
* The HTTP layer (`requests.post`) is an oracle `net : Request → NetResult`
  mapping each request to the outcome the server produces for it.
* Parsed JSON response bodies are `ReplyBody` records; `none` in
  `NetResult.resp` models a body that fails JSON decoding.
* The Streamlit placeholder objects are modelled by a `Bool` (present or
  absent) plus an explicit list of emitted UI events, since the code only
  ever tests their truthiness and pushes rendering calls into them.
* Functions that the code drives through several calls are instrumented to
  also return the list of client calls (prompts) they issued and the UI
  events they emitted, so that claims about call counts and observability
  are statable.
-/

set_option maxRecDepth 2000

set_option maxHeartbeats 2000000

namespace TextFaq

/-- Embed a Lean string literal as a Python-style character list. -/
def str (s : String) : List Char := s.data

/-- Python `str.isspace` on the characters relevant to `str.strip()`
(the ASCII whitespace characters Python strips by default). -/
def pyIsSpace (c : Char) : Bool :=
  c = ' ' || c = '\t' || c = '\n' || c = '\r' || c = '\x0b' || c = '\x0c'

/-- Python `s.lstrip()`: drop leading whitespace. -/
def lstrip (l : List Char) : List Char := l.dropWhile pyIsSpace

/-- Python `s.rstrip()`: drop trailing whitespace. -/
def rstrip (l : List Char) : List Char := (l.reverse.dropWhile pyIsSpace).reverse

/-- Python `s.strip()`: drop leading and trailing whitespace. -/
def pyStrip (l : List Char) : List Char := rstrip (lstrip l)

/-- Python `s.startswith(pre)`. -/
def pyStartsWith (l pre : List Char) : Bool := pre.isPrefixOf l

/-- Python `s.split('.')`: split on every `'.'`, keeping empty pieces
(`"".split('.') == ['']`). -/
def splitOnDot : List Char → List (List Char)
  | [] => [[]]
  | c :: rest =>
    let r := splitOnDot rest
    if c = '.' then [] :: r else (c :: r.headI) :: r.tail

/-- `text.replace('!', '.').replace('?', '.')` from `chunk_text`
(`src/app.py:126`). -/
def normalizeTerm (text : List Char) : List Char :=
  (text.map fun c => if c = '!' then '.' else c).map fun c => if c = '?' then '.' else c

/-- Re-join a list of sentences, appending `'.'` after each one; this is the
shape of the `current_chunk` accumulator of `chunk_text` (`src/app.py:130-136`),
which always holds `s₀ + "." + s₁ + "." + ⋯`. -/
def joinDots (bs : List (List Char)) : List Char := (bs.map (· ++ ['.'])).flatten

/-- The `for sentence in sentences` loop of `chunk_text` (`src/app.py:130-136`):
greedily pack sentences into `current`, flushing `current.strip()` into
`chunks` whenever the next sentence does not fit.  Returns the accumulated
chunk list and the final buffer. -/
def chunkLoop (maxChars : Nat) :
    List (List Char) → List (List Char) → List Char → List (List Char) × List Char
  | [], chunks, current => (chunks, current)
  | s :: rest, chunks, current =>
    if current.length + s.length < maxChars then
      chunkLoop maxChars rest chunks (current ++ s ++ ['.'])
    else if current ≠ [] then
      chunkLoop maxChars rest (chunks ++ [pyStrip current]) (s ++ ['.'])
    else
      chunkLoop maxChars rest chunks (s ++ ['.'])

/-- `chunk_text(text, max_chars)` (`src/app.py:120-141`): texts no longer than
`max_chars` are a single chunk; otherwise normalize `'!'`/`'?'` to `'.'`,
split on `'.'`, greedily pack sentences, and flush the trailing buffer. -/
def chunk_text (text : List Char) (maxChars : Nat) : List (List Char) :=
  if text.length ≤ maxChars then [text]
  else
    let sentences := splitOnDot (normalizeTerm text)
    let p := chunkLoop maxChars sentences [] []
    if p.2 ≠ [] then p.1 ++ [pyStrip p.2] else p.1

/-! ## HTTP model client (`inference`, `src/app.py:143-199`) -/

/-- An HTTP request issued by the client: `POST /api/chat` with a single user
message, or the fallback `POST /api/generate` (`src/app.py:150-179`). -/
inductive Request
  | chat (model content : List Char)
  | generate (model prompt : List Char)
deriving DecidableEq

/-- The parsed JSON body of a model response: whether a `message` key is
present, the `content` field under it (if any), and the top-level
`response` field (if any) — the shapes read at `src/app.py:185-188`. -/
structure ReplyBody where
  hasMessage : Bool
  messageContent : Option (List Char)
  response : Option (List Char)
deriving DecidableEq

/-- Outcome of one `requests.post`: an HTTP response with status code and
(possibly undecodable, `none`) JSON body, a connection error, a timeout, or
any other exception carrying its `str(e)` text. -/
inductive NetResult
  | resp (status : Nat) (body : Option ReplyBody)
  | connError
  | timeout
  | exc (msg : List Char)

/-- UI effects pushed into the Streamlit placeholders. -/
inductive UiEvent
  | steps
  | info (msg : List Char)
  | cleared
deriving DecidableEq

/-- Extraction of the model output from a decoded body
(`src/app.py:184-188`): `result['message'].get('content', '')` when a
`message` key exists, else `result.get('response', '')`. -/
def extractOutput (b : ReplyBody) : List Char :=
  if b.hasMessage then b.messageContent.getD [] else b.response.getD []

/-- Failure string for `requests.exceptions.ConnectionError` (`src/app.py:190-191`). -/
def serverNotRunningMsg : List Char :=
  str "❌ Error: Model server is not running. Please start the model server."

/-- Failure string for `requests.exceptions.Timeout` (`src/app.py:192-193`). -/
def timeoutMsg (t : Nat) : List Char :=
  str "❌ Error: Model inference timed out after " ++ (toString t).data ++
    str " seconds. Try reducing text length or number of questions."

/-- Failure string for a 404 `HTTPError` (`src/app.py:195-196`). -/
def modelNotFoundMsg (model : List Char) : List Char :=
  str "❌ Error: Model '" ++ model ++ str "' not found in model repository."

/-- Failure string `f"❌ Error: {str(e)}"` for a generic exception
(`src/app.py:197-199`). -/
def excMsg (m : List Char) : List Char := str "❌ Error: " ++ m

/-- Abstraction of `str(e)` for a `requests` `HTTPError` with the given
status code (its exact text is irrelevant to the code's control flow). -/
def httpErrDetail (status : Nat) : List Char := (toString status).data ++ str " Error"

/-- Abstraction of `str(e)` for a `json.JSONDecodeError` raised by
`response.json()` on an undecodable body. -/
def jsonErrDetail : List Char := str "invalid JSON body"

/-- The shared `except requests.exceptions.HTTPError` handler
(`src/app.py:194-197`): 404 → model-not-found message, otherwise the generic
`f"❌ Error: {str(e)}"`. -/
def httpErrorResult (model : List Char) (status : Nat) : List Char :=
  if status = 404 then modelNotFoundMsg model else excMsg (httpErrDetail status)

/-- `raise_for_status` raises an `HTTPError` exactly for 4xx/5xx statuses. -/
def isHttpError (status : Nat) : Bool := 400 ≤ status && status < 600

/-- Process an HTTP response past the 404-fallback decision
(`src/app.py:181-188`): `raise_for_status`, decode JSON, extract output. -/
def handleResponse (model : List Char) (status : Nat) (body : Option ReplyBody) :
    List Char :=
  if isHttpError status then httpErrorResult model status
  else
    match body with
    | none => excMsg jsonErrDetail
    | some b => extractOutput b

/-- Network core of `inference` (`src/app.py:149-199`): POST `/api/chat`; on a
404 status retry once with POST `/api/generate` and the same prompt; classify
connection errors, timeouts, HTTP errors and other exceptions into `❌`
strings.  Returns the result string and the HTTP requests issued, in order. -/
def inferenceNet (net : Request → NetResult) (prompt model : List Char)
    (timeout : Nat) : List Char × List Request :=
  let r1 := Request.chat model prompt
  match net r1 with
  | .connError => (serverNotRunningMsg, [r1])
  | .timeout => (timeoutMsg timeout, [r1])
  | .exc m => (excMsg m, [r1])
  | .resp status body =>
    if status = 404 then
      let r2 := Request.generate model prompt
      match net r2 with
      | .connError => (serverNotRunningMsg, [r1, r2])
      | .timeout => (timeoutMsg timeout, [r1, r2])
      | .exc m => (excMsg m, [r1, r2])
      | .resp st2 body2 => (handleResponse model st2 body2, [r1, r2])
    else
      (handleResponse model status body, [r1])

/-- Result of an instrumented client call: the returned string, the HTTP
requests issued, and the UI events emitted. -/
structure InfOut where
  res : List Char
  reqs : List Request
  ui : List UiEvent

/-- `inference(prompt, model_name, process_placeholder, timeout)`
(`src/app.py:143-199`): show the processing steps when a placeholder is
supplied, then run the network core. -/
def inference (net : Request → NetResult) (prompt model : List Char)
    (ph : Bool) (timeout : Nat) : InfOut :=
  let core := inferenceNet net prompt model timeout
  { res := core.1, reqs := core.2, ui := if ph then [UiEvent.steps] else [] }

/-! ## Generation orchestrator (`src/app.py:273-343`) -/

/-- The three summary length classes accepted by `generate_summary`
(`src/app.py:275-279`). -/
inductive SummaryLength
  | short
  | medium
  | long
deriving DecidableEq

/-- The `length_instructions` table (`src/app.py:275-279`). -/
def lengthInstruction : SummaryLength → List Char
  | .short => str "in 2-3 sentences"
  | .medium => str "in 1 paragraph (4-6 sentences)"
  | .long => str "in 2-3 paragraphs with key details"

/-- The summary prompt f-string (`src/app.py:281-285`). -/
def summaryPrompt (text : List Char) (len : SummaryLength) : List Char :=
  str "Please provide a clear and concise summary of the following text " ++
    lengthInstruction len ++ str ":\n\nText: " ++ text ++ str "\n\nSummary:"

/-- Result of an orchestrator entry point: the returned string, the prompts
of the client (`inference`) calls it issued in order, and the UI events. -/
structure GenOut where
  res : List Char
  calls : List (List Char)
  ui : List UiEvent

/-- `generate_summary(text, summary_length, model_name, process_placeholder)`
(`src/app.py:273-287`): build the prompt and make a single client call. -/
def generate_summary (net : Request → NetResult) (text : List Char)
    (summary_length : SummaryLength) (model : List Char) (ph : Bool) : GenOut :=
  let prompt := summaryPrompt text summary_length
  let out := inference net prompt model ph 1000
  { res := out.res, calls := [prompt], ui := out.ui }

/-- The per-chunk FAQ prompt f-string of the long-text path
(`src/app.py:304-311`). -/
def faqChunkPrompt (qpc : Nat) (chunk : List Char) : List Char :=
  str "Based on the following text section, generate " ++ (toString qpc).data ++
    str " frequently asked questions (FAQ) with their answers. Format each FAQ as:\n\nQ: [Question]\nA: [Answer]\n\nText: " ++
    chunk ++ str "\n\nFAQ:"

/-- The whole-text FAQ prompt f-string of the short-text path
(`src/app.py:330-337`). -/
def faqFullPrompt (n : Nat) (text : List Char) : List Char :=
  str "Based on the following text, generate " ++ (toString n).data ++
    str " frequently asked questions (FAQ) with their answers. Format each FAQ as:\n\nQ: [Question]\nA: [Answer]\n\nText: " ++
    text ++ str "\n\nFAQ:"

/-- The progress message `f"📝 Processing section {i+1}/{len(chunks)}..."`
(`src/app.py:302`), taking the already-incremented index. -/
def sectionMsg (i n : Nat) : List Char :=
  str "📝 Processing section " ++ (toString i).data ++ str "/" ++ (toString n).data ++
    str "... This may take a while for long texts."

/-- The result string of one per-chunk client call of the long-text path:
`inference(prompt, model_name, None, timeout=1000)` (`src/app.py:313`). -/
def chunkCallResult (net : Request → NetResult) (model prompt : List Char) :
    List Char :=
  (inference net prompt model false 1000).res

/-- Outcome of the per-chunk loop: `.error` when some chunk call returned a
`❌` failure (carrying that failure string), `.ok` with the collected FAQ
strings otherwise; plus the prompts issued and the UI events. -/
structure LoopOut where
  out : Except (List Char) (List (List Char))
  calls : List (List Char)
  ui : List UiEvent

/-- The `for i, chunk in enumerate(chunks)` loop of `generate_faq_smart`
(`src/app.py:300-319`): report progress, call the client on each chunk with
the uniform per-chunk question count, collect successful outputs, and abort
with the failure string as soon as one call returns a `❌` result. -/
def faqLoop (net : Request → NetResult) (model : List Char) (qpc nchunks : Nat)
    (ph : Bool) : List (List Char) → Nat → List (List Char) → LoopOut
  | [], _, acc => { out := .ok acc, calls := [], ui := [] }
  | chunk :: rest, i, acc =>
    let uiStep := if ph then [UiEvent.info (sectionMsg (i + 1) nchunks)] else []
    let prompt := faqChunkPrompt qpc chunk
    let faq := chunkCallResult net model prompt
    if pyStartsWith faq (str "❌") = false then
      let r := faqLoop net model qpc nchunks ph rest (i + 1) (acc ++ [faq])
      { out := r.out, calls := prompt :: r.calls, ui := uiStep ++ r.ui }
    else
      { out := .error faq, calls := [prompt]
        ui := uiStep ++ (if ph then [UiEvent.cleared] else []) }

/-- The chunk list of the long-text path: `chunk_text(text, max_chars=2500)`
(`src/app.py:295`). -/
def faqChunks (text : List Char) : List (List Char) := chunk_text text 2500

/-- `questions_per_chunk = max(2, num_questions // len(chunks))`
(`src/app.py:296`). -/
def faqQpc (text : List Char) (n : Nat) : Nat := max 2 (n / (faqChunks text).length)

/-- `"\n\n".join(all_faqs)` (`src/app.py:325`). -/
def joinBlank (xs : List (List Char)) : List Char := List.intercalate (str "\n\n") xs

/-- `generate_faq_smart(text, num_questions, model_name, process_placeholder)`
(`src/app.py:289-339`): texts over 3000 characters are chunked at 2500 and
processed per chunk, the combined output being cut at 10000 characters;
shorter texts get a single client call with the whole text. -/
def generate_faq_smart (net : Request → NetResult) (text : List Char)
    (num_questions : Nat) (model : List Char) (ph : Bool) : GenOut :=
  if 3000 < text.length then
    let chunks := faqChunks text
    let qpc := max 2 (num_questions / chunks.length)
    let r := faqLoop net model qpc chunks.length ph chunks 0 []
    match r.out with
    | .error e => { res := e, calls := r.calls, ui := r.ui }
    | .ok faqs =>
      let combined := joinBlank faqs
      { res := combined.take (min combined.length 10000), calls := r.calls
        ui := r.ui ++ (if ph then [UiEvent.cleared] else []) }
  else
    let prompt := faqFullPrompt num_questions text
    let out := inference net prompt model ph 1000
    { res := out.res, calls := [prompt], ui := out.ui }

/-- `generate_faq` (`src/app.py:341-343`), a backwards-compatibility wrapper. -/
def generate_faq (net : Request → NetResult) (text : List Char)
    (num_questions : Nat) (model : List Char) (ph : Bool) : GenOut :=
  generate_faq_smart net text num_questions model ph

/-! ## Concrete servers and texts used to instantiate the theorems -/

/-- A server which always answers 200 with payload `"OK"`. -/
def okNet : Request → NetResult := fun _ =>
  .resp 200 (some ⟨true, some (str "OK"), none⟩)

/-- A server which always refuses the connection. -/
def connNet : Request → NetResult := fun _ => .connError

/-- A server whose successful payload itself begins with the `❌` marker. -/
def markNet : Request → NetResult := fun _ =>
  .resp 200 (some ⟨true, some (str "❌ gotcha"), none⟩)

/-- A server which always answers 200 with a 10001-character payload. -/
def bigNet : Request → NetResult := fun _ =>
  .resp 200 (some ⟨true, some (List.replicate 10001 'X'), none⟩)

/-- A server answering 404 on `/api/chat` and 200 on `/api/generate`. -/
def fbNet : Request → NetResult
  | .chat _ _ => .resp 404 none
  | .generate _ _ => .resp 200 (some ⟨false, none, some (str "payload")⟩)

/-- A 3001-character sentence-free text: just over the chunking threshold. -/
def longAText : List Char := List.replicate 3001 'a'

/-- A 1250-character dot-free sentence. -/
def aSent : List Char := List.replicate 1250 'a'

/-- A 3753-character text of three 1250-character sentences; `chunk_text`
at 2500 produces exactly three chunks from it. -/
def exText : List Char := joinDots [aSent, aSent, aSent]

/-! ## Sentence recovery from chunks

`dechunk` undoes the synthetic trailing periods of a chunk: splitting the
chunk on `'.'` gives its sentences followed by the empty piece produced by
the final synthetic period, which `dropLast` removes. -/

/-- The sentences stored in a chunk, with the synthetic trailing periods
stripped. -/
def dechunk (c : List Char) : List (List Char) := (splitOnDot c).dropLast

/-- All sentences recovered from a chunk list, each whitespace-trimmed. -/
def recChunks (cs : List (List Char)) : List (List Char) :=
  (cs.map fun c => (dechunk c).map pyStrip).flatten

/-- Sentences recovered from a loop state: the flushed chunks followed by the
pending buffer (when nonempty). -/
def recState (p : List (List Char) × List Char) : List (List Char) :=
  recChunks p.1 ++ (if p.2 = [] then [] else (dechunk p.2).map pyStrip)

/-! ## Lemmas about `splitOnDot`, `joinDots` and `pyStrip` -/

theorem splitOnDot_ne_nil (l : List Char) : splitOnDot l ≠ [] := by
  cases l with
  | nil => simp [splitOnDot]
  | cons c rest =>
    simp only [splitOnDot]
    split <;> simp

theorem splitOnDot_cons_dot (l : List Char) :
    splitOnDot ('.' :: l) = [] :: splitOnDot l := by
  simp [splitOnDot]

theorem splitOnDot_cons_ne {c : Char} (l : List Char) (h : ¬c = '.') :
    splitOnDot (c :: l) = (c :: (splitOnDot l).headI) :: (splitOnDot l).tail := by
  simp [splitOnDot, h]

theorem splitOnDot_append_dot (b t : List Char) (hb : '.' ∉ b) :
    splitOnDot (b ++ '.' :: t) = b :: splitOnDot t := by
  induction b with
  | nil => simpa using splitOnDot_cons_dot t
  | cons c b ih =>
    have hc : ¬c = '.' := fun h => hb (by simp [h])
    have hb' : '.' ∉ b := fun h => hb (List.mem_cons_of_mem _ h)
    rw [List.cons_append, splitOnDot_cons_ne _ hc, ih hb']
    simp

theorem splitOnDot_no_dot (l : List Char) : ∀ p ∈ splitOnDot l, '.' ∉ p := by
  induction l with
  | nil => simp [splitOnDot]
  | cons c rest ih =>
    obtain ⟨a, as, he⟩ := List.exists_cons_of_ne_nil (splitOnDot_ne_nil rest)
    by_cases hc : c = '.'
    · subst hc
      rw [splitOnDot_cons_dot]
      intro p hp
      rcases List.mem_cons.1 hp with rfl | hp
      · simp
      · exact ih p hp
    · rw [splitOnDot_cons_ne _ hc, he]
      intro p hp
      rcases List.mem_cons.1 hp with rfl | hp
      · intro hmem
        rcases List.mem_cons.1 hmem with h | h
        · exact hc h.symm
        · exact ih a (he ▸ List.mem_cons_self a as) (by simpa using h)
      · exact ih p (he ▸ List.mem_cons_of_mem a hp)

theorem joinDots_cons (b : List Char) (bs : List (List Char)) :
    joinDots (b :: bs) = b ++ '.' :: joinDots bs := by
  simp [joinDots]

theorem joinDots_append (bs cs : List (List Char)) :
    joinDots (bs ++ cs) = joinDots bs ++ joinDots cs := by
  simp [joinDots]

theorem joinDots_eq_nil_iff (bs : List (List Char)) : joinDots bs = [] ↔ bs = [] := by
  cases bs with
  | nil => simp [joinDots]
  | cons b bs => simp [joinDots_cons]

theorem splitOnDot_joinDots (bs : List (List Char)) (h : ∀ b ∈ bs, '.' ∉ b) :
    splitOnDot (joinDots bs) = bs ++ [[]] := by
  induction bs with
  | nil => rfl
  | cons b bs ih =>
    rw [joinDots_cons, splitOnDot_append_dot _ _ (h b (List.mem_cons_self b bs)),
      ih fun x hx => h x (List.mem_cons_of_mem b hx)]
    rfl

theorem pyIsSpace_dot : pyIsSpace '.' = false := rfl

theorem rstrip_append_dot (x : List Char) : rstrip (x ++ ['.']) = x ++ ['.'] := by
  simp [rstrip, List.reverse_append, List.dropWhile_cons, pyIsSpace_dot]

theorem dropWhile_pyIsSpace_idem (l : List Char) :
    (l.dropWhile pyIsSpace).dropWhile pyIsSpace = l.dropWhile pyIsSpace := by
  induction l with
  | nil => rfl
  | cons c l ih =>
    by_cases hc : pyIsSpace c
    · simp [List.dropWhile_cons, hc, ih]
    · simp [List.dropWhile_cons, hc]

theorem pyStrip_lstrip (l : List Char) : pyStrip (lstrip l) = pyStrip l := by
  simp [pyStrip, lstrip, dropWhile_pyIsSpace_idem]

theorem lstrip_length_le (l : List Char) : (lstrip l).length ≤ l.length :=
  (List.dropWhile_sublist pyIsSpace).length_le

theorem pyStrip_length_le (l : List Char) : (pyStrip l).length ≤ l.length := by
  have h1 : ((lstrip l).reverse.dropWhile pyIsSpace).length ≤ (lstrip l).reverse.length :=
    (List.dropWhile_sublist pyIsSpace).length_le
  simp only [pyStrip, rstrip, List.length_reverse] at h1 ⊢
  exact h1.trans (lstrip_length_le l)

theorem lstrip_no_dot {l : List Char} (h : '.' ∉ l) : '.' ∉ lstrip l :=
  fun hm => h ((List.dropWhile_sublist pyIsSpace).mem hm)

theorem lstrip_append_cons_dot (b t : List Char) :
    lstrip (b ++ '.' :: t) = lstrip b ++ '.' :: t := by
  rw [lstrip, List.dropWhile_append]
  by_cases hb : (b.dropWhile pyIsSpace).isEmpty
  · simp [hb, List.dropWhile_cons, pyIsSpace_dot, List.isEmpty_iff.1 hb, lstrip]
  · simp [hb, lstrip]

theorem joinDots_ends_dot (g : List (List Char)) (hg : g ≠ []) :
    ∃ x, joinDots g = x ++ ['.'] := by
  induction g with
  | nil => exact absurd rfl hg
  | cons b bs ih =>
    cases bs with
    | nil => exact ⟨b, by simp [joinDots_cons, joinDots]⟩
    | cons c cs =>
      obtain ⟨x, hx⟩ := ih (by simp)
      exact ⟨b ++ '.' :: x, by simp [joinDots_cons, hx]⟩

theorem pyStrip_joinDots (b : List Char) (bs : List (List Char)) :
    pyStrip (joinDots (b :: bs)) = joinDots (lstrip b :: bs) := by
  rw [joinDots_cons, pyStrip, lstrip_append_cons_dot, ← joinDots_cons]
  obtain ⟨x, hx⟩ := joinDots_ends_dot (lstrip b :: bs) (by simp)
  rw [hx, rstrip_append_dot]

theorem dechunk_pyStrip_joinDots (bs : List (List Char)) (hbs : bs ≠ [])
    (h : ∀ b ∈ bs, '.' ∉ b) :
    (dechunk (pyStrip (joinDots bs))).map pyStrip = bs.map pyStrip := by
  obtain ⟨b, rest, rfl⟩ := List.exists_cons_of_ne_nil hbs
  rw [pyStrip_joinDots, dechunk, splitOnDot_joinDots]
  · rw [List.dropLast_concat]
    simp [pyStrip_lstrip]
  · intro x hx
    rcases List.mem_cons.1 hx with rfl | hx
    · exact lstrip_no_dot (h b (List.mem_cons_self b rest))
    · exact h x (List.mem_cons_of_mem b hx)

theorem dechunk_joinDots (bs : List (List Char)) (h : ∀ b ∈ bs, '.' ∉ b) :
    dechunk (joinDots bs) = bs := by
  rw [dechunk, splitOnDot_joinDots bs h]
  simp

theorem joinDots_singleton (s : List Char) : joinDots [s] = s ++ ['.'] := by
  simp [joinDots]

theorem recChunks_append (xs ys : List (List Char)) :
    recChunks (xs ++ ys) = recChunks xs ++ recChunks ys := by
  simp [recChunks]

/-! ## Invariants of the greedy packing loop -/

/-- Sentence recovery invariant: running the loop with buffer `joinDots bs`
recovers, after per-sentence whitespace trimming, exactly the sentences
already flushed, the buffered ones, and the remaining ones — none dropped,
none duplicated, in order. -/
theorem chunkLoop_recover (maxChars : Nat) :
    ∀ sents : List (List Char), (∀ s ∈ sents, '.' ∉ s) →
    ∀ bs : List (List Char), (∀ b ∈ bs, '.' ∉ b) →
    ∀ chunks : List (List Char),
      recState (chunkLoop maxChars sents chunks (joinDots bs)) =
        recChunks chunks ++ (bs ++ sents).map pyStrip := by
  intro sents
  induction sents with
  | nil =>
    intro _ bs hb chunks
    by_cases hbs : bs = []
    · subst hbs
      simp [chunkLoop, recState, joinDots]
    · have hne : joinDots bs ≠ [] := fun h => hbs ((joinDots_eq_nil_iff bs).1 h)
      simp [chunkLoop, recState, hne, dechunk_joinDots bs hb]
  | cons s rest ih =>
    intro hs bs hb chunks
    have hrest : ∀ x ∈ rest, '.' ∉ x := fun x hx => hs x (List.mem_cons_of_mem s hx)
    have hsdot : '.' ∉ s := hs s (List.mem_cons_self s rest)
    have harg : joinDots bs ++ s ++ ['.'] = joinDots (bs ++ [s]) := by
      rw [joinDots_append, joinDots_singleton, List.append_assoc]
    have hbs' : ∀ b ∈ bs ++ [s], '.' ∉ b := by
      intro b hbmem
      rcases List.mem_append.1 hbmem with hbmem | hbmem
      · exact hb b hbmem
      · simpa using (List.mem_singleton.1 hbmem) ▸ hsdot
    by_cases hfit : (joinDots bs).length + s.length < maxChars
    · have hstep : chunkLoop maxChars (s :: rest) chunks (joinDots bs) =
          chunkLoop maxChars rest chunks (joinDots (bs ++ [s])) := by
        rw [chunkLoop, if_pos hfit, harg]
      rw [hstep, ih hrest (bs ++ [s]) hbs' chunks]
      simp
    · by_cases hbs : bs = []
      · subst hbs
        have hstep : chunkLoop maxChars (s :: rest) chunks (joinDots []) =
            chunkLoop maxChars rest chunks (joinDots [s]) := by
          rw [chunkLoop, if_neg hfit, if_neg (by simp [joinDots]), joinDots_singleton]
        rw [hstep, ih hrest [s] (by simpa using hsdot) chunks]
        simp
      · have hne : joinDots bs ≠ [] := fun h => hbs ((joinDots_eq_nil_iff bs).1 h)
        have hstep : chunkLoop maxChars (s :: rest) chunks (joinDots bs) =
            chunkLoop maxChars rest (chunks ++ [pyStrip (joinDots bs)]) (joinDots [s]) := by
          rw [chunkLoop, if_neg hfit, if_pos hne, joinDots_singleton]
        rw [hstep, ih hrest [s] (by simpa using hsdot) (chunks ++ [pyStrip (joinDots bs)]),
          recChunks_append]
        simp [recChunks, dechunk_pyStrip_joinDots bs hbs hb]

/-- Shape invariant: the buffer is always a dot-joined list of dot-free
sentences, and it is nonempty once anything has been fed to the loop. -/
theorem chunkLoop_cur_shape (maxChars : Nat) :
    ∀ sents : List (List Char), (∀ s ∈ sents, '.' ∉ s) →
    ∀ bs : List (List Char), (∀ b ∈ bs, '.' ∉ b) →
    ∀ chunks : List (List Char),
      ∃ ds : List (List Char), (∀ d ∈ ds, '.' ∉ d) ∧
        (chunkLoop maxChars sents chunks (joinDots bs)).2 = joinDots ds ∧
        (bs ≠ [] ∨ sents ≠ [] → ds ≠ []) := by
  intro sents
  induction sents with
  | nil =>
    intro _ bs hb chunks
    exact ⟨bs, hb, by simp [chunkLoop], fun h => by
      rcases h with h | h
      · exact h
      · exact absurd rfl h⟩
  | cons s rest ih =>
    intro hs bs hb chunks
    have hrest : ∀ x ∈ rest, '.' ∉ x := fun x hx => hs x (List.mem_cons_of_mem s hx)
    have hsdot : '.' ∉ s := hs s (List.mem_cons_self s rest)
    have hs1 : ∀ b ∈ [s], '.' ∉ b := by simpa using hsdot
    have harg : joinDots bs ++ s ++ ['.'] = joinDots (bs ++ [s]) := by
      rw [joinDots_append, joinDots_singleton, List.append_assoc]
    have hbs' : ∀ b ∈ bs ++ [s], '.' ∉ b := by
      intro b hbmem
      rcases List.mem_append.1 hbmem with hbmem | hbmem
      · exact hb b hbmem
      · simpa using (List.mem_singleton.1 hbmem) ▸ hsdot
    by_cases hfit : (joinDots bs).length + s.length < maxChars
    · obtain ⟨ds, h1, h2, h3⟩ := ih hrest (bs ++ [s]) hbs' chunks
      refine ⟨ds, h1, ?_, fun _ => h3 (Or.inl (by simp))⟩
      rw [chunkLoop, if_pos hfit, harg]
      exact h2
    · by_cases hbs : bs = []
      · subst hbs
        obtain ⟨ds, h1, h2, h3⟩ := ih hrest [s] hs1 chunks
        refine ⟨ds, h1, ?_, fun _ => h3 (Or.inl (by simp))⟩
        rw [chunkLoop, if_neg hfit, if_neg (by simp [joinDots]), ← joinDots_singleton]
        exact h2
      · have hne : joinDots bs ≠ [] := fun h => hbs ((joinDots_eq_nil_iff bs).1 h)
        obtain ⟨ds, h1, h2, h3⟩ := ih hrest [s] hs1 (chunks ++ [pyStrip (joinDots bs)])
        refine ⟨ds, h1, ?_, fun _ => h3 (Or.inl (by simp))⟩
        rw [chunkLoop, if_neg hfit, if_pos hne, ← joinDots_singleton]
        exact h2

/-- Size invariant: every flushed chunk, and the buffer itself, is either
within `maxChars` or the trailing-period form of a single sentence of
`sents₀`. -/
theorem chunkLoop_bound (maxChars : Nat) (sents₀ : List (List Char)) :
    ∀ sents : List (List Char), (∀ x ∈ sents, x ∈ sents₀) →
    ∀ chunks : List (List Char),
      (∀ c ∈ chunks, c.length ≤ maxChars ∨ ∃ s ∈ sents₀, c = pyStrip (s ++ ['.'])) →
    ∀ current : List Char,
      (current = [] ∨ current.length ≤ maxChars ∨ ∃ s ∈ sents₀, current = s ++ ['.']) →
      (∀ c ∈ (chunkLoop maxChars sents chunks current).1,
          c.length ≤ maxChars ∨ ∃ s ∈ sents₀, c = pyStrip (s ++ ['.'])) ∧
      ((chunkLoop maxChars sents chunks current).2 = [] ∨
        (chunkLoop maxChars sents chunks current).2.length ≤ maxChars ∨
        ∃ s ∈ sents₀, (chunkLoop maxChars sents chunks current).2 = s ++ ['.']) := by
  intro sents
  induction sents with
  | nil =>
    intro _ chunks hchunks current hcur
    exact ⟨by simpa [chunkLoop] using hchunks, by simpa [chunkLoop] using hcur⟩
  | cons s rest ih =>
    intro hs chunks hchunks current hcur
    have hrest : ∀ x ∈ rest, x ∈ sents₀ := fun x hx => hs x (List.mem_cons_of_mem s hx)
    have hsmem : s ∈ sents₀ := hs s (List.mem_cons_self s rest)
    by_cases hfit : current.length + s.length < maxChars
    · have hlen : (current ++ s ++ ['.']).length ≤ maxChars := by
        simp only [List.length_append, List.length_singleton]
        omega
      have hstep : chunkLoop maxChars (s :: rest) chunks current =
          chunkLoop maxChars rest chunks (current ++ s ++ ['.']) := by
        rw [chunkLoop, if_pos hfit]
      rw [hstep]
      exact ih hrest chunks hchunks _ (Or.inr (Or.inl hlen))
    · by_cases hne : current = []
      · subst hne
        have hstep : chunkLoop maxChars (s :: rest) chunks [] =
            chunkLoop maxChars rest chunks (s ++ ['.']) := by
          rw [chunkLoop, if_neg hfit, if_neg (by simp)]
        rw [hstep]
        exact ih hrest chunks hchunks _ (Or.inr (Or.inr ⟨s, hsmem, rfl⟩))
      · have hflush : ∀ c ∈ chunks ++ [pyStrip current],
            c.length ≤ maxChars ∨ ∃ x ∈ sents₀, c = pyStrip (x ++ ['.']) := by
          intro c hc
          rcases List.mem_append.1 hc with hc | hc
          · exact hchunks c hc
          · rw [List.mem_singleton.1 hc]
            rcases hcur with h | h | ⟨x, hx, hxe⟩
            · exact absurd h hne
            · exact Or.inl ((pyStrip_length_le current).trans h)
            · exact Or.inr ⟨x, hx, by rw [hxe]⟩
        have hstep : chunkLoop maxChars (s :: rest) chunks current =
            chunkLoop maxChars rest (chunks ++ [pyStrip current]) (s ++ ['.']) := by
          rw [chunkLoop, if_neg hfit, if_pos hne]
        rw [hstep]
        exact ih hrest _ hflush _ (Or.inr (Or.inr ⟨s, hsmem, rfl⟩))

/-- Unfolding of the long-text path of `chunk_text`: the loop's trailing
buffer is nonempty and is flushed, stripped, as the final chunk. -/
theorem chunk_text_long_eq (text : List Char) (maxChars : Nat)
    (h : maxChars < text.length) :
    (chunkLoop maxChars (splitOnDot (normalizeTerm text)) [] []).2 ≠ [] ∧
    chunk_text text maxChars =
      (chunkLoop maxChars (splitOnDot (normalizeTerm text)) [] []).1 ++
        [pyStrip (chunkLoop maxChars (splitOnDot (normalizeTerm text)) [] []).2] := by
  have hsent := splitOnDot_no_dot (normalizeTerm text)
  obtain ⟨ds, _, hcur, hne⟩ :=
    chunkLoop_cur_shape maxChars _ hsent [] (by simp) []
  have hcur' : (chunkLoop maxChars (splitOnDot (normalizeTerm text)) [] []).2 = joinDots ds :=
    hcur
  have hcurne : (chunkLoop maxChars (splitOnDot (normalizeTerm text)) [] []).2 ≠ [] := by
    rw [hcur', Ne, joinDots_eq_nil_iff]
    exact hne (Or.inr (splitOnDot_ne_nil _))
  refine ⟨hcurne, ?_⟩
  rw [chunk_text, if_neg (not_le.2 h)]
  simp only [hcurne, ne_eq, not_false_eq_true, if_true, ite_true]

/-! ## Claim C5 -/

/-- C5: every chunk returned by `chunk_text` has length at most `maxChars`,
except for a chunk that is a single (stripped, period-terminated) sentence of
the split text, which is emitted unsplit even when oversized. -/
theorem claim_c5_chunk_size_bound (text : List Char) (maxChars : Nat) :
    ∀ c ∈ chunk_text text maxChars,
      c.length ≤ maxChars ∨
        ∃ s ∈ splitOnDot (normalizeTerm text), c = pyStrip (s ++ ['.']) := by
  by_cases h : text.length ≤ maxChars
  · rw [chunk_text, if_pos h]
    intro c hc
    rw [List.mem_singleton.1 hc]
    exact Or.inl h
  · push_neg at h
    obtain ⟨hcur, heq⟩ := chunk_text_long_eq text maxChars h
    obtain ⟨hch, hc2⟩ := chunkLoop_bound maxChars (splitOnDot (normalizeTerm text)) _
      (fun x hx => hx) [] (by simp) [] (Or.inl rfl)
    rw [heq]
    intro c hc
    rcases List.mem_append.1 hc with hc | hc
    · exact hch c hc
    · rw [List.mem_singleton.1 hc]
      rcases hc2 with h2 | h2 | ⟨s, hs, h2⟩
      · exact absurd h2 hcur
      · exact Or.inl ((pyStrip_length_le _).trans h2)
      · exact Or.inr ⟨s, hs, by rw [h2]⟩

theorem claim_c5_witness :
    str "hi" ∈ chunk_text (str "hi") 10 ∧
      ((str "hi").length ≤ 10 ∨
        ∃ s ∈ splitOnDot (normalizeTerm (str "hi")),
          str "hi" = pyStrip (s ++ ['.'])) :=
  ⟨by decide, claim_c5_chunk_size_bound (str "hi") 10 (str "hi") (by decide)⟩

/-! ## Claim C6 -/

/-- C6 counterexample: concatenating the chunks of `"aaaa. bbbb"` (split at 4)
after stripping the synthetic trailing periods does NOT reconstruct the
original sentence sequence: the second sentence `" bbbb"` comes back as
`"bbbb"`, its leading whitespace removed by the chunk-level `strip()`. -/
theorem claim_c6_cex :
    ((chunk_text (str "aaaa. bbbb") 4).map dechunk).flatten ≠
      splitOnDot (normalizeTerm (str "aaaa. bbbb")) := by decide

/-- C6 (amended): a text no longer than `maxChars` is returned as the single
chunk `[text]`; for a longer text, the sentences recovered from the chunks
(synthetic trailing periods stripped) reconstruct the original sentence
sequence up to per-sentence whitespace stripping — no sentence dropped, none
duplicated, in order — and the trailing buffer is always nonempty and flushed
(stripped) as the final chunk. -/
theorem claim_c6_chunk_reconstruct (text : List Char) (maxChars : Nat) :
    (text.length ≤ maxChars → chunk_text text maxChars = [text]) ∧
    (maxChars < text.length →
      (((chunk_text text maxChars).map fun c => (dechunk c).map pyStrip).flatten =
          (splitOnDot (normalizeTerm text)).map pyStrip) ∧
        (chunkLoop maxChars (splitOnDot (normalizeTerm text)) [] []).2 ≠ [] ∧
        chunk_text text maxChars =
          (chunkLoop maxChars (splitOnDot (normalizeTerm text)) [] []).1 ++
            [pyStrip (chunkLoop maxChars (splitOnDot (normalizeTerm text)) [] []).2]) := by
  constructor
  · intro h
    rw [chunk_text, if_pos h]
  · intro h
    have hsent := splitOnDot_no_dot (normalizeTerm text)
    obtain ⟨hcur, heq⟩ := chunk_text_long_eq text maxChars h
    obtain ⟨ds, hds, hcur2, hdsne⟩ :=
      chunkLoop_cur_shape maxChars _ hsent [] (by simp) []
    have hcur2' : (chunkLoop maxChars (splitOnDot (normalizeTerm text)) [] []).2 =
        joinDots ds := hcur2
    have hdsne' : ds ≠ [] := hdsne (Or.inr (splitOnDot_ne_nil _))
    refine ⟨?_, hcur, heq⟩
    have hrec := chunkLoop_recover maxChars _ hsent [] (by simp) []
    have hrec' : recState (chunkLoop maxChars (splitOnDot (normalizeTerm text)) [] []) =
        (splitOnDot (normalizeTerm text)).map pyStrip := by
      simpa [recChunks] using hrec
    rw [recState, if_neg hcur] at hrec'
    have h2 : (dechunk (pyStrip (chunkLoop maxChars (splitOnDot (normalizeTerm text))
        [] []).2)).map pyStrip =
        (dechunk (chunkLoop maxChars (splitOnDot (normalizeTerm text)) [] []).2).map
          pyStrip := by
      rw [hcur2', dechunk_pyStrip_joinDots ds hdsne' hds, dechunk_joinDots ds hds]
    rw [heq]
    show recChunks (_ ++ [pyStrip _]) = _
    rw [recChunks_append]
    have h1 : recChunks [pyStrip (chunkLoop maxChars (splitOnDot (normalizeTerm text))
        [] []).2] =
        (dechunk (pyStrip (chunkLoop maxChars (splitOnDot (normalizeTerm text))
          [] []).2)).map pyStrip := by
      simp [recChunks]
    rw [h1, h2]
    exact hrec'

theorem claim_c6_witness :
    (((chunk_text (str "aaaa. bbbb") 4).map fun c => (dechunk c).map pyStrip).flatten =
        (splitOnDot (normalizeTerm (str "aaaa. bbbb"))).map pyStrip) ∧
      4 < (str "aaaa. bbbb").length :=
  ⟨((claim_c6_chunk_reconstruct (str "aaaa. bbbb") 4).2 (by decide)).1, by decide⟩

/-! ## Lemmas about the per-chunk FAQ loop -/

/-- The loop's outcome and issued calls do not depend on the placeholder. -/
theorem faqLoop_ph_irrelevant (net : Request → NetResult) (model : List Char)
    (qpc nchunks : Nat) (ph : Bool) :
    ∀ (l : List (List Char)) (i : Nat) (acc : List (List Char)),
      (faqLoop net model qpc nchunks ph l i acc).out =
          (faqLoop net model qpc nchunks false l i acc).out ∧
        (faqLoop net model qpc nchunks ph l i acc).calls =
          (faqLoop net model qpc nchunks false l i acc).calls := by
  intro l
  induction l with
  | nil => intro i acc; exact ⟨rfl, rfl⟩
  | cons c rest ih =>
    intro i acc
    by_cases hc : pyStartsWith (chunkCallResult net model (faqChunkPrompt qpc c))
        (str "❌") = false
    · simp only [faqLoop, hc, if_true]
      exact ⟨(ih (i + 1) _).1, by rw [(ih (i + 1) _).2]⟩
    · simp only [faqLoop, hc, if_false]
      exact ⟨rfl, rfl⟩

/-- A loop failure string always carries the `❌` marker. -/
theorem faqLoop_error_marked (net : Request → NetResult) (model : List Char)
    (qpc nchunks : Nat) (ph : Bool) :
    ∀ (l : List (List Char)) (i : Nat) (acc : List (List Char)) (e : List Char),
      (faqLoop net model qpc nchunks ph l i acc).out = .error e →
      pyStartsWith e (str "❌") = true := by
  intro l
  induction l with
  | nil => intro i acc e h; simp [faqLoop] at h
  | cons c rest ih =>
    intro i acc e h
    by_cases hc : pyStartsWith (chunkCallResult net model (faqChunkPrompt qpc c))
        (str "❌") = false
    · simp only [faqLoop, hc, if_true] at h
      exact ih (i + 1) _ e h
    · simp only [faqLoop] at h
      rw [if_neg hc] at h
      have h2 : chunkCallResult net model (faqChunkPrompt qpc c) = e := Except.error.inj h
      rw [← h2]
      exact eq_true_of_ne_false hc

/-- If every chunk call succeeds, the loop returns all results in order and
issues exactly one call per chunk, in chunk order. -/
theorem faqLoop_ok_all (net : Request → NetResult) (model : List Char)
    (qpc nchunks : Nat) (ph : Bool) :
    ∀ (l : List (List Char)) (i : Nat) (acc : List (List Char)),
      (∀ c ∈ l,
        pyStartsWith (chunkCallResult net model (faqChunkPrompt qpc c)) (str "❌")
          = false) →
      (faqLoop net model qpc nchunks ph l i acc).out =
          .ok (acc ++ l.map fun c => chunkCallResult net model (faqChunkPrompt qpc c)) ∧
        (faqLoop net model qpc nchunks ph l i acc).calls =
          l.map (faqChunkPrompt qpc) := by
  intro l
  induction l with
  | nil => intro i acc _; exact ⟨by simp [faqLoop], rfl⟩
  | cons c rest ih =>
    intro i acc hall
    have hc := hall c (List.mem_cons_self c rest)
    have hrest := fun x hx => hall x (List.mem_cons_of_mem c hx)
    obtain ⟨h1, h2⟩ := ih (i + 1) (acc ++ [chunkCallResult net model (faqChunkPrompt qpc c)]) hrest
    simp only [faqLoop, hc, if_true]
    exact ⟨by rw [h1]; simp, by rw [h2]; simp⟩

/-- If the first failing chunk is at position `k`, the loop stops there: the
failure string is returned as the outcome, and calls were issued only for
chunks `0..k`. -/
theorem faqLoop_err_at (net : Request → NetResult) (model : List Char)
    (qpc nchunks : Nat) (ph : Bool) :
    ∀ (l : List (List Char)) (i : Nat) (acc : List (List Char)) (k : Nat)
      (hk : k < l.length),
      (∀ j (hj : j < k),
        pyStartsWith (chunkCallResult net model
            (faqChunkPrompt qpc (l.get ⟨j, Nat.lt_trans hj hk⟩))) (str "❌")
          = false) →
      pyStartsWith (chunkCallResult net model (faqChunkPrompt qpc (l.get ⟨k, hk⟩)))
          (str "❌") = true →
      (faqLoop net model qpc nchunks ph l i acc).out =
          .error (chunkCallResult net model (faqChunkPrompt qpc (l.get ⟨k, hk⟩))) ∧
        (faqLoop net model qpc nchunks ph l i acc).calls =
          (l.take (k + 1)).map (faqChunkPrompt qpc) := by
  intro l
  induction l with
  | nil => intro i acc k hk; exact absurd hk (Nat.not_lt_zero k)
  | cons c rest ih =>
    intro i acc k hk hpre hfail
    cases k with
    | zero =>
      have hc : ¬pyStartsWith (chunkCallResult net model (faqChunkPrompt qpc c))
          (str "❌") = false := by
        simpa using hfail
      refine ⟨?_, ?_⟩
      · simp only [faqLoop]
        rw [if_neg hc]
        simp
      · simp only [faqLoop]
        rw [if_neg hc]
        simp
    | succ k =>
      have hc : pyStartsWith (chunkCallResult net model (faqChunkPrompt qpc c))
          (str "❌") = false := by
        simpa using hpre 0 (Nat.succ_pos k)
      have hk' : k < rest.length := Nat.lt_of_succ_lt_succ hk
      have hpre' : ∀ j (hj : j < k),
          pyStartsWith (chunkCallResult net model
              (faqChunkPrompt qpc (rest.get ⟨j, Nat.lt_trans hj hk'⟩))) (str "❌")
            = false := by
        intro j hj
        simpa using hpre (j + 1) (Nat.succ_lt_succ hj)
      have hfail' : pyStartsWith (chunkCallResult net model
          (faqChunkPrompt qpc (rest.get ⟨k, hk'⟩))) (str "❌") = true := by
        simpa using hfail
      obtain ⟨h1, h2⟩ := ih (i + 1)
        (acc ++ [chunkCallResult net model (faqChunkPrompt qpc c)]) k hk' hpre' hfail'
      simp only [faqLoop, hc, if_true]
      refine ⟨by simpa using h1, ?_⟩
      rw [List.take_succ_cons, List.map_cons]
      rw [h2]

/-- Every prompt issued by the loop is the uniform per-chunk prompt of one of
its chunks. -/
theorem faqLoop_calls_shape (net : Request → NetResult) (model : List Char)
    (qpc nchunks : Nat) (ph : Bool) :
    ∀ (l : List (List Char)) (i : Nat) (acc : List (List Char)),
      ∀ p ∈ (faqLoop net model qpc nchunks ph l i acc).calls,
        ∃ c ∈ l, p = faqChunkPrompt qpc c := by
  intro l
  induction l with
  | nil => intro i acc p hp; simp [faqLoop] at hp
  | cons c rest ih =>
    intro i acc p hp
    by_cases hc : pyStartsWith (chunkCallResult net model (faqChunkPrompt qpc c))
        (str "❌") = false
    · simp only [faqLoop, hc, if_true] at hp
      rcases List.mem_cons.1 hp with rfl | hp
      · exact ⟨c, List.mem_cons_self c rest, rfl⟩
      · obtain ⟨x, hx, he⟩ := ih (i + 1) _ p hp
        exact ⟨x, List.mem_cons_of_mem c hx, he⟩
    · simp only [faqLoop, hc, if_false] at hp
      rcases List.mem_singleton.1 hp with rfl
      exact ⟨c, List.mem_cons_self c rest, rfl⟩

/-! ## Unfolding lemmas for `generate_faq_smart` -/

/-- Long-text path, failing loop: the failure string is the overall result
and the loop's calls are the issued calls. -/
theorem generate_faq_smart_err (net : Request → NetResult) (text : List Char)
    (n : Nat) (model : List Char) (ph : Bool) (h : 3000 < text.length)
    (e : List Char)
    (he : (faqLoop net model (faqQpc text n) (faqChunks text).length ph
        (faqChunks text) 0 []).out = .error e) :
    (generate_faq_smart net text n model ph).res = e ∧
      (generate_faq_smart net text n model ph).calls =
        (faqLoop net model (faqQpc text n) (faqChunks text).length ph
          (faqChunks text) 0 []).calls := by
  simp only [generate_faq_smart, faqQpc] at *
  rw [if_pos h, he]
  exact ⟨rfl, rfl⟩

/-- Long-text path, successful loop: the result is the blank-line join of the
per-chunk outputs, truncated to 10000 characters. -/
theorem generate_faq_smart_ok (net : Request → NetResult) (text : List Char)
    (n : Nat) (model : List Char) (ph : Bool) (h : 3000 < text.length)
    (faqs : List (List Char))
    (he : (faqLoop net model (faqQpc text n) (faqChunks text).length ph
        (faqChunks text) 0 []).out = .ok faqs) :
    (generate_faq_smart net text n model ph).res =
        (joinBlank faqs).take (min (joinBlank faqs).length 10000) ∧
      (generate_faq_smart net text n model ph).calls =
        (faqLoop net model (faqQpc text n) (faqChunks text).length ph
          (faqChunks text) 0 []).calls := by
  simp only [generate_faq_smart, faqQpc] at *
  rw [if_pos h, he]
  exact ⟨rfl, rfl⟩

/-- Short-text path: a single client call on the whole-text prompt. -/
theorem generate_faq_smart_short (net : Request → NetResult) (text : List Char)
    (n : Nat) (model : List Char) (ph : Bool) (h : ¬3000 < text.length) :
    (generate_faq_smart net text n model ph).res =
        (inferenceNet net (faqFullPrompt n text) model 1000).1 ∧
      (generate_faq_smart net text n model ph).calls = [faqFullPrompt n text] := by
  simp only [generate_faq_smart]
  rw [if_neg h]
  exact ⟨rfl, rfl⟩

/-- `chunk_text` never returns an empty chunk list. -/
theorem chunk_text_ne_nil (text : List Char) (maxChars : Nat) :
    chunk_text text maxChars ≠ [] := by
  by_cases h : text.length ≤ maxChars
  · rw [chunk_text, if_pos h]
    simp
  · push_neg at h
    rw [(chunk_text_long_eq text maxChars h).2]
    simp

/-! ## Symbolic evaluation of the chunker on the concrete witness texts

The loop is evaluated by rewriting, keeping `List.replicate` unevaluated,
because unfolding 3000-character lists step by step is out of reach of the
kernel. -/

theorem dropWhile_eq_self_of {α : Type} (p : α → Bool) (l : List α)
    (h : ∀ c ∈ l, p c = false) : l.dropWhile p = l := by
  cases l with
  | nil => rfl
  | cons c t =>
    rw [List.dropWhile_cons, h c (List.mem_cons_self c t)]
    simp

theorem pyStrip_no_space (l : List Char) (h : ∀ c ∈ l, pyIsSpace c = false) :
    pyStrip l = l := by
  rw [pyStrip, lstrip, dropWhile_eq_self_of pyIsSpace l h, rstrip,
    dropWhile_eq_self_of pyIsSpace l.reverse fun c hc => h c (List.mem_reverse.1 hc),
    List.reverse_reverse]

theorem splitOnDot_no_dot_eq (l : List Char) (h : '.' ∉ l) : splitOnDot l = [l] := by
  induction l with
  | nil => rfl
  | cons c t ih =>
    have hc : ¬c = '.' := fun hc => h (by simp [hc])
    rw [splitOnDot_cons_ne t hc, ih fun ht => h (List.mem_cons_of_mem c ht)]
    rfl

theorem longAText_length : longAText.length = 3001 := by
  rw [longAText]
  exact List.length_replicate ..

theorem longAText_all_a : ∀ c ∈ longAText, c = 'a' := by
  intro c hc
  rw [longAText] at hc
  exact (List.eq_of_mem_replicate hc)

theorem aSent_length : aSent.length = 1250 := by
  rw [aSent]
  exact List.length_replicate ..

theorem aSent_all_a : ∀ c ∈ aSent, c = 'a' := by
  intro c hc
  rw [aSent] at hc
  exact (List.eq_of_mem_replicate hc)

theorem normalizeTerm_eq_self (l : List Char) (h : ∀ c ∈ l, c ≠ '!' ∧ c ≠ '?') :
    normalizeTerm l = l := by
  rw [normalizeTerm]
  rw [List.map_map]
  have : ∀ c ∈ l, ((fun c => if c = '?' then '.' else c) ∘
      fun c => if c = '!' then '.' else c) c = id c := by
    intro c hc
    simp [(h c hc).1, (h c hc).2]
  rw [List.map_congr_left this, List.map_id]

/-- Chunking the dot-free 3001-character text: a single oversized chunk. -/
theorem faqChunks_longAText : faqChunks longAText = [longAText ++ ['.']] := by
  have hnorm : normalizeTerm longAText = longAText :=
    normalizeTerm_eq_self _ fun c hc => by
      rw [longAText_all_a c hc]
      exact ⟨by decide, by decide⟩
  have hnodot : '.' ∉ longAText := fun hd => by
    have := longAText_all_a '.' hd
    simp at this
  have hnospace : ∀ c ∈ longAText ++ ['.'], pyIsSpace c = false := by
    intro c hc
    rcases List.mem_append.1 hc with hc | hc
    · rw [longAText_all_a c hc]; rfl
    · rw [List.mem_singleton.1 hc]; rfl
  have hsplit : splitOnDot (normalizeTerm longAText) = [longAText] := by
    rw [hnorm, splitOnDot_no_dot_eq _ hnodot]
  have hlong : 2500 < longAText.length := by rw [longAText_length]; omega
  have hloop : chunkLoop 2500 [longAText] [] [] = ([], longAText ++ ['.']) := by
    rw [chunkLoop, if_neg (by rw [longAText_length]; simp),
      if_neg (by simp), chunkLoop]
  have heq := (chunk_text_long_eq longAText 2500 hlong).2
  rw [hsplit, hloop] at heq
  rw [faqChunks, heq, pyStrip_no_space _ hnospace]
  rfl

/-- Chunking the three-sentence 3753-character text: exactly three chunks. -/
theorem faqChunks_exText :
    faqChunks exText = [aSent ++ ['.'], aSent ++ ['.'], aSent ++ ['.', '.']] := by
  have hmem : ∀ c ∈ exText, c ∈ aSent ∨ c = '.' := by
    intro c hc
    rw [exText, joinDots_cons, joinDots_cons, joinDots_singleton] at hc
    simp only [List.mem_append, List.mem_cons, List.mem_singleton] at hc
    tauto
  have hnorm : normalizeTerm exText = exText := by
    refine normalizeTerm_eq_self _ fun c hc => ?_
    rcases hmem c hc with hc | rfl
    · rw [aSent_all_a c hc]
      exact ⟨by decide, by decide⟩
    · exact ⟨by decide, by decide⟩
  have hadot : '.' ∉ aSent := fun hd => by
    have := aSent_all_a '.' hd
    simp at this
  have hsplit : splitOnDot (normalizeTerm exText) = [aSent, aSent, aSent, []] := by
    rw [hnorm, exText, splitOnDot_joinDots]
    · rfl
    · intro b hb
      rcases List.mem_cons.1 hb with rfl | hb
      · exact hadot
      · rcases List.mem_cons.1 hb with rfl | hb
        · exact hadot
        · rw [List.mem_singleton.1 hb]
          exact hadot
  have hexlen : 2500 < exText.length := by
    rw [exText, joinDots_cons, joinDots_cons, joinDots_singleton]
    simp only [List.length_append, List.length_cons, aSent_length,
      List.length_singleton]
    omega
  have hnospace1 : ∀ c ∈ aSent ++ ['.'], pyIsSpace c = false := by
    intro c hc
    rcases List.mem_append.1 hc with hc | hc
    · rw [aSent_all_a c hc]; rfl
    · rw [List.mem_singleton.1 hc]; rfl
  have hnospace0 : ∀ c ∈ ([] : List Char) ++ aSent ++ ['.'], pyIsSpace c = false := by
    intro c hc
    rw [List.nil_append] at hc
    exact hnospace1 c hc
  have hnospace3 : ∀ c ∈ (aSent ++ ['.']) ++ [] ++ ['.'], pyIsSpace c = false := by
    intro c hc
    simp only [List.append_nil, List.mem_append, List.mem_singleton] at hc
    rcases hc with (hc | rfl) | rfl
    · rw [aSent_all_a c hc]; rfl
    · rfl
    · rfl
  have hloop : chunkLoop 2500 [aSent, aSent, aSent, []] [] [] =
      ([pyStrip ([] ++ aSent ++ ['.']), pyStrip (aSent ++ ['.'])],
        (aSent ++ ['.']) ++ [] ++ ['.']) := by
    rw [chunkLoop, if_pos (by rw [List.length_nil, aSent_length]; omega)]
    rw [chunkLoop, if_neg (by
        simp only [List.nil_append, List.length_append, aSent_length,
          List.length_singleton]
        omega),
      if_pos (by simp)]
    rw [chunkLoop, if_neg (by
        simp only [List.length_append, aSent_length, List.length_singleton]
        omega),
      if_pos (by simp)]
    rw [chunkLoop, if_pos (by
        simp only [List.length_append, aSent_length, List.length_singleton,
          List.length_nil]
        omega)]
    rw [chunkLoop]
    simp
  have heq := (chunk_text_long_eq exText 2500 hexlen).2
  rw [hsplit, hloop] at heq
  rw [faqChunks, heq, pyStrip_no_space _ hnospace0, pyStrip_no_space _ hnospace1,
    pyStrip_no_space _ hnospace3]
  simp

/-- The per-chunk calls of `okNet` all answer `"OK"`, so the whole long-path
run on the 3001-character text returns `"OK"`. -/
theorem res_okNet_longAText :
    (generate_faq_smart okNet longAText 5 (str "m") false).res = str "OK" := by
  have hlong : 3000 < longAText.length := by rw [longAText_length]; omega
  obtain ⟨h1, h2⟩ := faqLoop_ok_all okNet (str "m") (faqQpc longAText 5)
    (faqChunks longAText).length false (faqChunks longAText) 0 [] (fun c _ => rfl)
  rw [List.nil_append] at h1
  have hres := (generate_faq_smart_ok okNet longAText 5 (str "m") false hlong _ h1).1
  rw [hres, faqChunks_longAText]
  rw [show (List.map (fun c => chunkCallResult okNet (str "m")
    (faqChunkPrompt (faqQpc longAText 5) c)) [longAText ++ ['.']]) = [str "OK"] from rfl]
  decide

/-! ## Claim C7 -/

/-- C7: a 404 answer to the `/api/chat` POST triggers exactly one follow-up
POST to `/api/generate` carrying the same prompt, and the fallback is not by
itself a failure: whenever the fallback answer is a decodable non-error
response, its payload is returned verbatim. -/
theorem claim_c7_fallback (net : Request → NetResult) (prompt model : List Char)
    (ph : Bool) (t : Nat) (body : Option ReplyBody)
    (h : net (.chat model prompt) = .resp 404 body) :
    (inference net prompt model ph t).reqs =
        [.chat model prompt, .generate model prompt] ∧
      ∀ (st2 : Nat) (b2 : ReplyBody),
        net (.generate model prompt) = .resp st2 (some b2) → st2 < 400 →
        (inference net prompt model ph t).res = extractOutput b2 := by
  constructor
  · cases hgen : net (Request.generate model prompt) <;>
      simp [inference, inferenceNet, h, hgen]
  · intro st2 b2 hgen hlt
    have h400 : isHttpError st2 = false := by
      simp only [isHttpError, Bool.and_eq_false_iff]
      left
      simpa using by omega
    simp [inference, inferenceNet, h, hgen, handleResponse, h400]

theorem claim_c7_witness :
    (inference fbNet (str "p") (str "m") false 7).reqs =
        [.chat (str "m") (str "p"), .generate (str "m") (str "p")] ∧
      (inference fbNet (str "p") (str "m") false 7).res = str "payload" := by
  have h := claim_c7_fallback fbNet (str "p") (str "m") false 7 none rfl
  exact ⟨h.1, h.2 200 ⟨false, none, some (str "payload")⟩ rfl (by omega)⟩

/-! ## Claim C8 -/

/-- C8: `generate_summary` always issues exactly one client call, whose
prompt contains the length directive of the requested class and the literal
input text; the directive for class `short` is `"in 2-3 sentences"`. -/
theorem claim_c8_summary_single_call (net : Request → NetResult) (text : List Char)
    (len : SummaryLength) (model : List Char) (ph : Bool) :
    (generate_summary net text len model ph).calls = [summaryPrompt text len] ∧
      (∃ l r, summaryPrompt text len = l ++ lengthInstruction len ++ r) ∧
      (∃ l r, summaryPrompt text len = l ++ text ++ r) ∧
      lengthInstruction .short = str "in 2-3 sentences" := by
  refine ⟨rfl,
    ⟨str "Please provide a clear and concise summary of the following text ",
      str ":\n\nText: " ++ text ++ str "\n\nSummary:", ?_⟩,
    ⟨str "Please provide a clear and concise summary of the following text " ++
      lengthInstruction len ++ str ":\n\nText: ", str "\n\nSummary:", ?_⟩, rfl⟩
  · simp [summaryPrompt]
  · simp [summaryPrompt]

/-! ## Claim C9 -/

/-- C9: the strings returned by `generate_summary` and `generate_faq_smart`
are identical whether the progress placeholder is supplied or not; the
placeholder influences only the emitted UI events. -/
theorem claim_c9_sink_independent (net : Request → NetResult) (text : List Char)
    (len : SummaryLength) (n : Nat) (model : List Char) (ph ph2 : Bool) :
    (generate_summary net text len model ph).res =
        (generate_summary net text len model ph2).res ∧
      (generate_faq_smart net text n model ph).res =
        (generate_faq_smart net text n model ph2).res := by
  constructor
  · rfl
  · by_cases h : 3000 < text.length
    · have h1 := faqLoop_ph_irrelevant net model (faqQpc text n)
        (faqChunks text).length ph (faqChunks text) 0 []
      have h2 := faqLoop_ph_irrelevant net model (faqQpc text n)
        (faqChunks text).length ph2 (faqChunks text) 0 []
      rcases hout : (faqLoop net model (faqQpc text n) (faqChunks text).length false
          (faqChunks text) 0 []).out with e | faqs
      · rw [(generate_faq_smart_err net text n model ph h e (h1.1.trans hout)).1,
          (generate_faq_smart_err net text n model ph2 h e (h2.1.trans hout)).1]
      · rw [(generate_faq_smart_ok net text n model ph h faqs (h1.1.trans hout)).1,
          (generate_faq_smart_ok net text n model ph2 h faqs (h2.1.trans hout)).1]
    · rw [(generate_faq_smart_short net text n model ph h).1,
        (generate_faq_smart_short net text n model ph2 h).1]

/-! ## Claim C1 -/

/-- C1 counterexample: on a 5-character text (short path, single un-truncated
client call) a successful model payload of 10001 characters is returned
whole — the returned string is a success (no `❌` marker) yet longer than
10000 characters, refuting the claim that every successful `generate_faq_smart`
result is at most 10000 characters long. -/
theorem claim_c1_cex :
    pyStartsWith (generate_faq_smart bigNet (str "hi") 5 (str "m") false).res
        (str "❌") = false ∧
      10000 < (generate_faq_smart bigNet (str "hi") 5 (str "m") false).res.length := by
  have hres : (generate_faq_smart bigNet (str "hi") 5 (str "m") false).res =
      List.replicate 10001 'X' := rfl
  refine ⟨?_, ?_⟩
  · rw [hres]
    rfl
  · rw [hres, List.length_replicate]
    omega

/-- C1 (amended): in the long-text path (text length over 3000) every
successful result of `generate_faq_smart` is truncated to at most 10000
characters; the short-text path returns the single client payload
untruncated, so it carries no such bound. -/
theorem claim_c1_long_cap (net : Request → NetResult) (text : List Char) (n : Nat)
    (model : List Char) (ph : Bool) (h : 3000 < text.length)
    (hok : pyStartsWith (generate_faq_smart net text n model ph).res (str "❌")
      = false) :
    (generate_faq_smart net text n model ph).res.length ≤ 10000 := by
  rcases hout : (faqLoop net model (faqQpc text n) (faqChunks text).length ph
      (faqChunks text) 0 []).out with e | faqs
  · have hres := (generate_faq_smart_err net text n model ph h e hout).1
    have hmark := faqLoop_error_marked net model (faqQpc text n)
      (faqChunks text).length ph (faqChunks text) 0 [] e hout
    rw [hres, hmark] at hok
    exact absurd hok (by simp)
  · have hres := (generate_faq_smart_ok net text n model ph h faqs hout).1
    rw [hres, List.length_take]
    exact le_trans (Nat.min_le_left _ _) (Nat.min_le_right _ _)

theorem claim_c1_witness :
    3000 < longAText.length ∧
      (generate_faq_smart okNet longAText 5 (str "m") false).res.length ≤ 10000 :=
  ⟨by rw [longAText_length]; omega,
    claim_c1_long_cap okNet longAText 5 (str "m") false
      (by rw [longAText_length]; omega)
      (by rw [res_okNet_longAText]; decide)⟩

/-! ## Claim C2 -/

/-- C2: in the long-text path, if the client call for the chunk at position
`k` returns a `❌` failure and all earlier chunk calls succeeded, then the
loop stops there — calls are issued only for chunks `0..k` — and the failure
string itself is the overall result, earlier successes being discarded. -/
theorem claim_c2_abort_on_failure (net : Request → NetResult) (text : List Char)
    (n : Nat) (model : List Char) (ph : Bool) (h : 3000 < text.length)
    (k : Nat) (hk : k < (faqChunks text).length)
    (hpre : ∀ j (hj : j < k),
      pyStartsWith (chunkCallResult net model
          (faqChunkPrompt (faqQpc text n)
            ((faqChunks text).get ⟨j, Nat.lt_trans hj hk⟩))) (str "❌") = false)
    (hfail : pyStartsWith (chunkCallResult net model
        (faqChunkPrompt (faqQpc text n) ((faqChunks text).get ⟨k, hk⟩)))
      (str "❌") = true) :
    (generate_faq_smart net text n model ph).res =
        chunkCallResult net model
          (faqChunkPrompt (faqQpc text n) ((faqChunks text).get ⟨k, hk⟩)) ∧
      (generate_faq_smart net text n model ph).calls =
        ((faqChunks text).take (k + 1)).map (faqChunkPrompt (faqQpc text n)) := by
  obtain ⟨h1, h2⟩ := faqLoop_err_at net model (faqQpc text n) (faqChunks text).length
    ph (faqChunks text) 0 [] k hk hpre hfail
  obtain ⟨hres, hcalls⟩ := generate_faq_smart_err net text n model ph h _ h1
  exact ⟨hres, hcalls.trans h2⟩

theorem claim_c2_witness :
    (generate_faq_smart connNet longAText 5 (str "m") false).res =
        serverNotRunningMsg ∧
      (generate_faq_smart connNet longAText 5 (str "m") false).calls.length = 1 := by
  have hk : 0 < (faqChunks longAText).length :=
    List.length_pos.2 (chunk_text_ne_nil longAText 2500)
  have hfail : pyStartsWith (chunkCallResult connNet (str "m")
      (faqChunkPrompt (faqQpc longAText 5) ((faqChunks longAText).get ⟨0, hk⟩)))
      (str "❌") = true := rfl
  have h := claim_c2_abort_on_failure connNet longAText 5 (str "m") false
    (by rw [longAText_length]; omega) 0 hk
    (fun j hj => absurd hj (Nat.not_lt_zero j)) hfail
  refine ⟨h.1.trans rfl, ?_⟩
  rw [h.2]
  simp only [List.length_map, List.length_take]
  omega

/-! ## Claim C3 -/

/-- C3: with text length at most 3000 characters, `generate_faq_smart`
issues exactly one client call (on the whole-text prompt); with a longer
text it chunks at 2500 characters and — as long as no chunk call fails —
issues exactly one client call per chunk, in chunk order. -/
theorem claim_c3_call_counts (net : Request → NetResult) (text : List Char)
    (n : Nat) (model : List Char) (ph : Bool) :
    (text.length ≤ 3000 →
      (generate_faq_smart net text n model ph).calls = [faqFullPrompt n text]) ∧
    (3000 < text.length →
      (∀ c ∈ faqChunks text,
        pyStartsWith (chunkCallResult net model (faqChunkPrompt (faqQpc text n) c))
          (str "❌") = false) →
      (generate_faq_smart net text n model ph).calls =
        (chunk_text text 2500).map (faqChunkPrompt (faqQpc text n))) := by
  constructor
  · intro h
    exact (generate_faq_smart_short net text n model ph (not_lt.2 h)).2
  · intro h hall
    obtain ⟨h1, h2⟩ := faqLoop_ok_all net model (faqQpc text n)
      (faqChunks text).length ph (faqChunks text) 0 [] hall
    exact ((generate_faq_smart_ok net text n model ph h _ h1).2).trans h2

theorem claim_c3_witness :
    (generate_faq_smart okNet (str "short text") 4 (str "m") false).calls =
      [faqFullPrompt 4 (str "short text")] :=
  (claim_c3_call_counts okNet (str "short text") 4 (str "m") false).1 (by decide)

/-! ## Claim C4 -/

/-- C4: in the long-text path every issued client call requests the same
`max 2 (n / chunkCount)` questions (no remainder redistribution), and when
all chunk calls succeed the result is the blank-line join of the per-chunk
outputs (truncated at 10000). -/
theorem claim_c4_uniform_questions (net : Request → NetResult) (text : List Char)
    (n : Nat) (model : List Char) (ph : Bool) (h : 3000 < text.length) :
    (∀ p ∈ (generate_faq_smart net text n model ph).calls,
      ∃ c ∈ faqChunks text,
        p = faqChunkPrompt (max 2 (n / (faqChunks text).length)) c) ∧
    ((∀ c ∈ faqChunks text,
        pyStartsWith (chunkCallResult net model (faqChunkPrompt (faqQpc text n) c))
          (str "❌") = false) →
      (generate_faq_smart net text n model ph).res =
        (joinBlank ((faqChunks text).map fun c =>
            chunkCallResult net model (faqChunkPrompt (faqQpc text n) c))).take
          (min (joinBlank ((faqChunks text).map fun c =>
            chunkCallResult net model (faqChunkPrompt (faqQpc text n) c))).length
            10000)) := by
  constructor
  · intro p hp
    have hcalls : (generate_faq_smart net text n model ph).calls =
        (faqLoop net model (faqQpc text n) (faqChunks text).length ph
          (faqChunks text) 0 []).calls := by
      rcases hout : (faqLoop net model (faqQpc text n) (faqChunks text).length ph
          (faqChunks text) 0 []).out with e | faqs
      · exact (generate_faq_smart_err net text n model ph h e hout).2
      · exact (generate_faq_smart_ok net text n model ph h faqs hout).2
    rw [hcalls] at hp
    exact faqLoop_calls_shape net model (faqQpc text n) (faqChunks text).length ph
      (faqChunks text) 0 [] p hp
  · intro hall
    obtain ⟨h1, h2⟩ := faqLoop_ok_all net model (faqQpc text n)
      (faqChunks text).length ph (faqChunks text) 0 [] hall
    rw [List.nil_append] at h1
    exact (generate_faq_smart_ok net text n model ph h _ h1).1

theorem claim_c4_witness :
    (faqChunks exText).length = 3 ∧ faqQpc exText 6 = 2 ∧
      (generate_faq_smart okNet exText 6 (str "m") false).res =
        str "OK\n\nOK\n\nOK" := by
  have hexlen : 3000 < exText.length := by
    rw [exText, joinDots_cons, joinDots_cons, joinDots_singleton]
    simp only [List.length_append, List.length_cons, aSent_length,
      List.length_singleton]
    omega
  have h := (claim_c4_uniform_questions okNet exText 6 (str "m") false hexlen).2
    (fun c _ => rfl)
  rw [faqChunks_exText] at h
  rw [show (List.map (fun c => chunkCallResult okNet (str "m")
      (faqChunkPrompt (faqQpc exText 6) c))
      [aSent ++ ['.'], aSent ++ ['.'], aSent ++ ['.', '.']]) =
    [str "OK", str "OK", str "OK"] from rfl] at h
  refine ⟨by rw [faqChunks_exText]; rfl, ?_, ?_⟩
  · rw [faqQpc, faqChunks_exText]
    rfl
  · rw [h]
    decide

/-! ## Claim C10 -/

/-- C10: per-chunk success is decided solely by the `❌` prefix of the
returned string: if the HTTP call for the first chunk succeeds (status 200,
decodable body) but its payload happens to begin with `❌`, the orchestrator
classifies it as a failure, aborts after that single call, and returns the
payload as the overall result. -/
theorem claim_c10_marker_classifies (net : Request → NetResult) (text : List Char)
    (n : Nat) (model : List Char) (ph : Bool) (payload : List Char)
    (h : 3000 < text.length)
    (hmark : pyStartsWith payload (str "❌") = true)
    (hnet : net (.chat model (faqChunkPrompt (faqQpc text n) (faqChunks text).headI)) =
      .resp 200 (some ⟨true, some payload, none⟩)) :
    (generate_faq_smart net text n model ph).res = payload ∧
      (generate_faq_smart net text n model ph).calls =
        [faqChunkPrompt (faqQpc text n) (faqChunks text).headI] := by
  obtain ⟨c0, rest, hchunks⟩ :=
    List.exists_cons_of_ne_nil (chunk_text_ne_nil text 2500)
  have hhead : (faqChunks text).headI = c0 := by
    rw [show faqChunks text = chunk_text text 2500 from rfl, hchunks]
    rfl
  rw [hhead] at hnet
  have hres0 : chunkCallResult net model (faqChunkPrompt (faqQpc text n) c0)
      = payload := by
    simp [chunkCallResult, inference, inferenceNet, hnet, handleResponse,
      isHttpError, extractOutput]
  have hk : 0 < (faqChunks text).length :=
    List.length_pos.2 (chunk_text_ne_nil text 2500)
  have hget : (faqChunks text).get ⟨0, hk⟩ = c0 := by
    simp [show faqChunks text = chunk_text text 2500 from rfl, hchunks]
  obtain ⟨h1, h2⟩ := faqLoop_err_at net model (faqQpc text n) (faqChunks text).length
    ph (faqChunks text) 0 [] 0 hk (fun j hj => absurd hj (Nat.not_lt_zero j))
    (by rw [hget, hres0]; exact hmark)
  obtain ⟨hres, hcalls⟩ := generate_faq_smart_err net text n model ph h _ h1
  refine ⟨?_, ?_⟩
  · rw [hres, hget, hres0]
  · rw [hcalls, h2, hhead]
    simp [show faqChunks text = chunk_text text 2500 from rfl, hchunks]

theorem claim_c10_witness :
    (generate_faq_smart markNet longAText 5 (str "m") false).res = str "❌ gotcha" ∧
      (generate_faq_smart markNet longAText 5 (str "m") false).calls.length = 1 := by
  have h := claim_c10_marker_classifies markNet longAText 5 (str "m") false
    (str "❌ gotcha") (by rw [longAText_length]; omega) (by decide) rfl
  refine ⟨h.1, ?_⟩
  rw [h.2]
  rfl

end TextFaq
